import Mathlib

/-!
Verification of `tools.go`, the one source file of react-native-outline.

The repository consists of one Go file, `tools.go`: a build-constrained file of
package `tools` whose only content is a blank import of
`golang.org/x/mobile/cmd/gomobile`.

The file is embedded as its text (`toolsGo`, line by line).  Everything that is
stated about it is computed from that text by executable models of the rules
of the Go language and toolchain that give the text its meaning:

* build constraints: the header scan and the evaluation of `//go:build` and
  `// +build` lines (after `go/build` and `go/build/constraint`);
* lexical structure and the top level of the grammar: tokens, automatic
  semicolon insertion, package clause, import declarations and the leading
  keyword of every further top-level declaration (after the Go language
  specification).

Letters are restricted to ASCII in both models.
-/

namespace tools

/-! ## The source text -/

/-- The text of `tools.go`; the lines are separated by a newline character and
the last line is not followed by one. -/
def toolsGo : List String :=
  [ "// See https://github.com/golang/go/wiki/Modules#how-can-i-track-tool-dependencies-for-a-module",
    "",
    "//go:build tools",
    "// +build tools",
    "",
    "package tools",
    "",
    "import (",
    "\t// Tool imports for mobile build.",
    "\t_ \"golang.org/x/mobile/cmd/gomobile\"",
    ")" ]

/-! ## Text helpers (the functions of Go's `strings` and `bytes` that are used) -/

/-- White space as `strings.TrimSpace` sees it (ASCII part). -/
def isSpace (c : Char) : Bool :=
  c == ' ' || c == '\t' || c == '\n' || c == '\r' || c == Char.ofNat 11 || c == Char.ofNat 12

/-- Model of `strings.TrimSpace`. -/
def trimSpace (s : List Char) : List Char :=
  ((s.dropWhile isSpace).reverse.dropWhile isSpace).reverse

/-- Model of `strings.HasPrefix s p`. -/
def hasPrefix (s p : List Char) : Bool :=
  p.isPrefixOf s

/-- Model of `strings.Contains s p`. -/
def containsSub (s p : List Char) : Bool :=
  s.tails.any (fun t => p.isPrefixOf t)

/-- Splits at every character satisfying `p` (the separators are dropped);
`cur` is the piece being read, reversed. -/
def splitAt (p : Char → Bool) : List Char → List Char → List (List Char)
  | [], cur => [cur.reverse]
  | c :: r, cur => if p c then cur.reverse :: splitAt p r [] else splitAt p r (c :: cur)

/-- Model of `strings.Fields`. -/
def fields (s : List Char) : List (List Char) :=
  (splitAt isSpace s []).filter (fun f => !f.isEmpty)

/-- Model of `strings.Split s ","`. -/
def splitComma (s : List Char) : List (List Char) :=
  splitAt (fun c => c == ',') s []

/-- The text after the first occurrence of `*/`, if there is one. -/
def afterStarSlash : List Char → Option (List Char)
  | [] => none
  | c :: r =>
    match r with
    | [] => none
    | d :: r2 => if c == '*' && d == '/' then some r2 else afterStarSlash r

/-! ## Build constraints -/

/-- A build-constraint expression (`constraint.Expr`). -/
inductive Expr where
  | tag (t : String)
  | not (x : Expr)
  | and (x y : Expr)
  | or (x y : Expr)
deriving DecidableEq, Repr

/-- Model of `Expr.Eval`: `ok` tells which tags are satisfied. -/
def Expr.eval : Expr → (String → Bool) → Bool
  | .tag t, ok => ok t
  | .not x, ok => !(x.eval ok)
  | .and x y, ok => x.eval ok && y.eval ok
  | .or x y, ok => x.eval ok || y.eval ok

/-- The satisfied-tag predicate of a set of build tags. -/
def tagSet (tags : List String) : String → Bool :=
  fun t => decide (t ∈ tags)

/-- A character that may occur in a tag: letter, digit, `_` or `.`. -/
def isTagChar (c : Char) : Bool :=
  c.isAlpha || c.isDigit || c == '_' || c == '.'

/-- Model of `isValidTag`. -/
def isValidTag (s : List Char) : Bool :=
  !s.isEmpty && s.all isTagChar

/-- Tokens of a `//go:build` expression. -/
inductive BTok where
  | lparen
  | rparen
  | bang
  | andand
  | oror
  | tag (t : String)
deriving DecidableEq, Repr

/-- Emits the tag read so far (`cur`, reversed), if any, in front of `toks`. -/
def flushTag (cur : List Char) (toks : List BTok) : List BTok :=
  if cur.isEmpty then toks else BTok.tag (String.mk cur.reverse) :: toks

/-- Model of `exprParser.lex`, run over the whole expression; `none` is a
syntax error. -/
def lexExpr : List Char → List Char → Option (List BTok)
  | [], cur => some (flushTag cur [])
  | c :: r, cur =>
    if isTagChar c then lexExpr r (c :: cur)
    else if c == ' ' || c == '\t' then (lexExpr r []).map (flushTag cur)
    else if c == '(' then (lexExpr r []).map (fun ts => flushTag cur (BTok.lparen :: ts))
    else if c == ')' then (lexExpr r []).map (fun ts => flushTag cur (BTok.rparen :: ts))
    else if c == '!' then (lexExpr r []).map (fun ts => flushTag cur (BTok.bang :: ts))
    else if c == '&' || c == '|' then
      match r with
      | [] => none
      | d :: r2 =>
        if d == c then
          (lexExpr r2 []).map
            (fun ts => flushTag cur ((if c == '&' then BTok.andand else BTok.oror) :: ts))
        else none
    else none

mutual
/-- Model of `exprParser.or`. -/
def parseOr : Nat → List BTok → Option (Expr × List BTok)
  | 0, _ => none
  | n + 1, ts =>
    match parseAnd n ts with
    | none => none
    | some (x, r) => orLoop n x r
/-- The loop of `exprParser.or`. -/
def orLoop : Nat → Expr → List BTok → Option (Expr × List BTok)
  | 0, _, _ => none
  | n + 1, x, ts =>
    match ts with
    | BTok.oror :: r =>
      match parseAnd n r with
      | none => none
      | some (y, r2) => orLoop n (Expr.or x y) r2
    | _ => some (x, ts)
/-- Model of `exprParser.and`. -/
def parseAnd : Nat → List BTok → Option (Expr × List BTok)
  | 0, _ => none
  | n + 1, ts =>
    match parseNot n ts with
    | none => none
    | some (x, r) => andLoop n x r
/-- The loop of `exprParser.and`. -/
def andLoop : Nat → Expr → List BTok → Option (Expr × List BTok)
  | 0, _, _ => none
  | n + 1, x, ts =>
    match ts with
    | BTok.andand :: r =>
      match parseNot n r with
      | none => none
      | some (y, r2) => andLoop n (Expr.and x y) r2
    | _ => some (x, ts)
/-- Model of `exprParser.not`; a double negation is a syntax error. -/
def parseNot : Nat → List BTok → Option (Expr × List BTok)
  | 0, _ => none
  | n + 1, ts =>
    match ts with
    | BTok.bang :: BTok.bang :: _ => none
    | BTok.bang :: r =>
      match parseAtom n r with
      | none => none
      | some (x, r2) => some (Expr.not x, r2)
    | _ => parseAtom n ts
/-- Model of `exprParser.atom`. -/
def parseAtom : Nat → List BTok → Option (Expr × List BTok)
  | 0, _ => none
  | n + 1, ts =>
    match ts with
    | BTok.lparen :: r =>
      match parseOr n r with
      | some (x, BTok.rparen :: r2) => some (x, r2)
      | _ => none
    | BTok.tag t :: r => some (Expr.tag t, r)
    | _ => none
end

/-- Model of `parseExpr`: the whole text must be one expression.  The fuel
bounds the depth of the calls of the six parsing functions.  (The limit that
Go puts on the size of an expression is left out.) -/
def parseExpr (s : List Char) : Option Expr :=
  match lexExpr s [] with
  | none => none
  | some ts =>
    match parseOr (6 * ts.length + 6) ts with
    | some (x, []) => some x
    | _ => none

/-- A single trailing newline is dropped, as `splitGoBuild` and
`splitPlusBuild` do first. -/
def dropFinalNewline (line : List Char) : List Char :=
  if line.getLast? == some '\n' then line.dropLast else line

/-- Model of `splitGoBuild`: the expression text of a `//go:build` line. -/
def splitGoBuild (line0 : List Char) : Option (List Char) :=
  let line := dropFinalNewline line0
  if line.contains '\n' then none
  else if !hasPrefix line "//go:build".toList then none
  else
    let rest := (trimSpace line).drop "//go:build".length
    let trim := trimSpace rest
    if rest.length == trim.length then none else some trim

/-- Model of `splitPlusBuild`: the expression text of a `// +build` line. -/
def splitPlusBuild (line0 : List Char) : Option (List Char) :=
  let line := dropFinalNewline line0
  if line.contains '\n' then none
  else if !hasPrefix line "//".toList then none
  else
    let l1 := trimSpace (line.drop 2)
    if !hasPrefix l1 "+build".toList then none
    else
      let rest := l1.drop "+build".length
      let trim := trimSpace rest
      if rest.length == trim.length then (if rest.isEmpty then some [] else none)
      else some trim

/-- Model of `constraint.IsPlusBuild`. -/
def isPlusBuild (line : List Char) : Bool :=
  (splitPlusBuild line).isSome

/-- One literal of a `// +build` line. -/
def plusBuildLit (lit : List Char) : Expr :=
  if hasPrefix lit "!!".toList || lit == "!".toList then Expr.tag "ignore"
  else if hasPrefix lit "!".toList then
    (if isValidTag (lit.drop 1) then Expr.not (Expr.tag (String.mk (lit.drop 1)))
     else Expr.not (Expr.tag "ignore"))
  else if isValidTag lit then Expr.tag (String.mk lit)
  else Expr.tag "ignore"

/-- Folds expressions with a binary operator, to the left, as the Go loops do. -/
def foldExprs (op : Expr → Expr → Expr) : List Expr → Option Expr
  | [] => none
  | x :: xs => some (xs.foldl op x)

/-- Model of `parsePlusBuildExpr`: the fields are alternatives, the
comma-separated literals of a field are conjoined.  (The limit that Go puts on
the number of operators is left out.) -/
def parsePlusBuildExpr (text : List Char) : Expr :=
  let clauses := (fields text).map
    (fun clause => (foldExprs Expr.and ((splitComma clause).map plusBuildLit)).getD (Expr.tag "ignore"))
  (foldExprs Expr.or clauses).getD (Expr.tag "ignore")

/-- Model of `constraint.Parse`: a line is read as a `//go:build` line if it
is one, else as a `// +build` line; `none` is an error. -/
def parse (line : List Char) : Option Expr :=
  match splitGoBuild line with
  | some text => parseExpr text
  | none => (splitPlusBuild line).map parsePlusBuildExpr

/-! ## The file header (`go/build`) -/

/-- Model of `isGoBuildComment` of `go/build`: a line that starts with
`//go:build` followed by nothing or by white space. -/
def isGoBuildComment (line : List Char) : Bool :=
  if !hasPrefix line "//go:build".toList then false
  else
    let rest := (trimSpace line).drop "//go:build".length
    rest.isEmpty || decide ((trimSpace rest).length < rest.length)

/-- Outcome of reading the comments of one header line. -/
inductive LineScan where
  | nextLine (inSlashStar : Bool)
  | nonComment
deriving DecidableEq, Repr

/-- The `Comments` loop of `parseFileHeader` on one trimmed line: skips
comments and reports text that is not a comment.  Every iteration but the
last drops two characters, so the fuel given by `scanLine` suffices. -/
def scanComments : Nat → List Char → Bool → LineScan
  | 0, _, inSlashStar => LineScan.nextLine inSlashStar
  | n + 1, line, inSlashStar =>
    if line.isEmpty then LineScan.nextLine inSlashStar
    else if inSlashStar then
      match afterStarSlash line with
      | some r => scanComments n (trimSpace r) false
      | none => LineScan.nextLine true
    else if hasPrefix line "//".toList then LineScan.nextLine false
    else if hasPrefix line "/*".toList then scanComments n (trimSpace (line.drop 2)) true
    else LineScan.nonComment

/-- The `Comments` loop with enough fuel for the line. -/
def scanLine (line : List Char) (inSlashStar : Bool) : LineScan :=
  scanComments (line.length + 1) line inSlashStar

/-- The variables of `parseFileHeader`; `endLine` counts the lines up to and
including the most recent blank line seen before `ended`. -/
structure Header where
  endLine : Nat
  ended : Bool
  inSlashStar : Bool
  goBuild : Option (List Char)
deriving DecidableEq, Repr

/-- The `Lines` loop of `parseFileHeader`; `i` is the number of lines already
read.  `none` is the error of a second `//go:build` line. -/
def headerLines : List (List Char) → Nat → Header → Option Header
  | [], _, h => some h
  | raw :: rest, i, h =>
    let line := trimSpace raw
    if line.isEmpty && !h.ended then
      headerLines rest (i + 1) { h with endLine := i + 1 }
    else
      let ended := h.ended || !hasPrefix line "//".toList
      let isGo := !h.inSlashStar && isGoBuildComment line
      if isGo && h.goBuild.isSome then none
      else
        let goBuild := if isGo then some line else h.goBuild
        match scanLine line h.inSlashStar with
        | LineScan.nextLine s =>
          headerLines rest (i + 1)
            { endLine := h.endLine, ended := ended, inSlashStar := s, goBuild := goBuild }
        | LineScan.nonComment =>
          some { endLine := h.endLine, ended := ended, inSlashStar := h.inSlashStar,
                 goBuild := goBuild }

/-- Model of `parseFileHeader`: the leading lines in which `// +build` lines
count (they end with the last blank line before the first line that is not a
`//` comment) and the `//go:build` line, if any. -/
def parseFileHeader (content : List String) : Option (List (List Char) × Option (List Char)) :=
  let lines := content.map String.toList
  match headerLines lines 0 { endLine := 0, ended := false, inSlashStar := false, goBuild := none } with
  | none => none
  | some h => some (lines.take h.endLine, h.goBuild)

/-- The `// +build` lines of a header that parse, as expressions. -/
def plusBuildExprs (header : List (List Char)) : List Expr :=
  header.filterMap (fun raw =>
    let line := trimSpace raw
    if !hasPrefix line "//".toList || !containsSub line "+build".toList then none
    else if !isPlusBuild line then none
    else parse line)

/-- The fallback of `shouldBuild`: every `// +build` line of the header must
hold. -/
def evalPlusBuild (header : List (List Char)) (ok : String → Bool) : Bool :=
  (plusBuildExprs header).all (fun x => x.eval ok)

/-- Model of `Context.shouldBuild` (Go 1.17 and later): a `//go:build` line
controls when there is one, otherwise the `// +build` lines do.  `none` is an
error (two `//go:build` lines, or one that does not parse). -/
def shouldBuild (content : List String) (ok : String → Bool) : Option Bool :=
  match parseFileHeader content with
  | none => none
  | some (header, goBuild) =>
    match goBuild with
    | some line =>
      match parse line with
      | none => none
      | some x => some (x.eval ok)
    | none => some (evalPlusBuild header ok)

/-- The decision taken from the `// +build` lines alone, the `//go:build` line
being read as an ordinary comment: what a toolchain that knows the legacy
form only (before Go 1.17) decides. -/
def shouldBuildLegacy (content : List String) (ok : String → Bool) : Option Bool :=
  match parseFileHeader content with
  | none => none
  | some (header, _) => some (evalPlusBuild header ok)

/-- The expression of the `//go:build` line of a file, if it has one. -/
def goBuildExpr (content : List String) : Option Expr :=
  match parseFileHeader content with
  | some (_, some line) => parse line
  | _ => none

/-- The expressions of the `// +build` lines of a file. -/
def legacyExprs (content : List String) : List Expr :=
  match parseFileHeader content with
  | some (header, _) => plusBuildExprs header
  | none => []

/-! ## Lexical structure (Go specification, "Lexical elements") -/

/-- A token of Go source text.  `lit` stands for numbers and rune literals,
`str` for string literals (interpreted or raw, with the text between the
delimiters).  Operators are delivered one character at a time, except `++` and
`--`, the only operators of more than one character after which a line end
becomes a semicolon; brackets are operators. -/
inductive Token where
  | ident (s : String)
  | keyword (s : String)
  | lit (s : String)
  | str (raw : Bool) (text : String)
  | op (s : String)
  | semi
deriving DecidableEq, Repr

/-- The keywords of Go. -/
def keywords : List String :=
  [ "break", "default", "func", "interface", "select", "case", "defer", "go", "map",
    "struct", "chan", "else", "goto", "package", "switch", "const", "fallthrough", "if",
    "range", "type", "continue", "for", "import", "return", "var" ]

/-- The keywords after which a line end becomes a semicolon. -/
def closingKeywords : List String :=
  [ "break", "continue", "fallthrough", "return" ]

/-- The double quote. -/
def dquote : Char := Char.ofNat 34

/-- The single quote. -/
def squote : Char := Char.ofNat 39

/-- The back quote, which delimits raw string literals. -/
def bquote : Char := Char.ofNat 96

/-- The backslash. -/
def bslash : Char := Char.ofNat 92

/-- A character of identifiers, keywords and numbers. -/
def isWordChar (c : Char) : Bool :=
  c.isAlpha || c.isDigit || c == '_'

/-- What the lexer is reading. -/
inductive Mode where
  | code
  | slash
  | sign (c : Char)
  | lineComment
  | blockComment (sawNewline : Bool) (star : Bool)
  | word (acc : List Char)
  | strLit (acc : List Char) (esc : Bool)
  | rawLit (acc : List Char)
  | runeLit (acc : List Char) (esc : Bool)
  | bad
deriving DecidableEq, Repr

/-- State of the lexer: `insertSemi` tells whether a line end after the last
token becomes a semicolon; `out` holds the tokens read, last one first. -/
structure LexState where
  mode : Mode
  insertSemi : Bool
  out : List Token
deriving DecidableEq, Repr

/-- Appends a token; `closes` tells whether it may end a statement. -/
def emit (st : LexState) (t : Token) (closes : Bool) : LexState :=
  { mode := Mode.code, insertSemi := closes, out := t :: st.out }

/-- A line end: automatic semicolon insertion. -/
def newline (st : LexState) : LexState :=
  if st.insertSemi then { mode := Mode.code, insertSemi := false, out := Token.semi :: st.out }
  else { st with mode := Mode.code }

/-- Appends the word `acc` (reversed): a number, a keyword or an identifier. -/
def emitWord (st : LexState) (acc : List Char) : LexState :=
  let w := String.mk acc.reverse
  if (acc.getLast?.getD ' ').isDigit then emit st (Token.lit w) true
  else if keywords.contains w then emit st (Token.keyword w) (closingKeywords.contains w)
  else emit st (Token.ident w) true

/-- One character read outside of comments and literals. -/
def codeStep (st : LexState) (c : Char) : LexState :=
  if c == '\n' then newline st
  else if c == ' ' || c == '\t' || c == '\r' then { st with mode := Mode.code }
  else if c == '/' then { st with mode := Mode.slash }
  else if c == '+' || c == '-' then { st with mode := Mode.sign c }
  else if c == dquote then { st with mode := Mode.strLit [] false }
  else if c == bquote then { st with mode := Mode.rawLit [] }
  else if c == squote then { st with mode := Mode.runeLit [] false }
  else if isWordChar c then { st with mode := Mode.word [c] }
  else if c == ';' then emit st Token.semi false
  else emit st (Token.op (String.mk [c])) (c == ')' || c == ']' || c == '}')

/-- One character read. -/
def lexStep (st : LexState) (c : Char) : LexState :=
  match st.mode with
  | Mode.code => codeStep st c
  | Mode.slash =>
    if c == '/' then { st with mode := Mode.lineComment }
    else if c == '*' then { st with mode := Mode.blockComment false false }
    else codeStep (emit st (Token.op "/") false) c
  | Mode.sign s =>
    if c == s then emit st (Token.op (String.mk [s, s])) true
    else codeStep (emit st (Token.op (String.mk [s])) false) c
  | Mode.lineComment => if c == '\n' then newline st else st
  | Mode.blockComment nl star =>
    if star && c == '/' then (if nl then newline st else { st with mode := Mode.code })
    else { st with mode := Mode.blockComment (nl || c == '\n') (c == '*') }
  | Mode.word acc =>
    if isWordChar c then { st with mode := Mode.word (c :: acc) }
    else codeStep (emitWord st acc) c
  | Mode.strLit acc esc =>
    if esc then { st with mode := Mode.strLit (c :: acc) false }
    else if c == bslash then { st with mode := Mode.strLit (c :: acc) true }
    else if c == dquote then emit st (Token.str false (String.mk acc.reverse)) true
    else if c == '\n' then { st with mode := Mode.bad }
    else { st with mode := Mode.strLit (c :: acc) false }
  | Mode.rawLit acc =>
    if c == bquote then emit st (Token.str true (String.mk acc.reverse)) true
    else { st with mode := Mode.rawLit (c :: acc) }
  | Mode.runeLit acc esc =>
    if esc then { st with mode := Mode.runeLit (c :: acc) false }
    else if c == bslash then { st with mode := Mode.runeLit (c :: acc) true }
    else if c == squote then emit st (Token.lit (String.mk acc.reverse)) true
    else if c == '\n' then { st with mode := Mode.bad }
    else { st with mode := Mode.runeLit (c :: acc) false }
  | Mode.bad => st

/-- The end of the text: the pending token is completed and the end counts as
a line end; an open literal or block comment is an error. -/
def lexEnd (st : LexState) : Option (List Token) :=
  let done : Option LexState :=
    match st.mode with
    | Mode.code => some st
    | Mode.slash => some (emit st (Token.op "/") false)
    | Mode.sign s => some (emit st (Token.op (String.mk [s])) false)
    | Mode.lineComment => some st
    | Mode.word acc => some (emitWord st acc)
    | _ => none
  done.map (fun s => (newline s).out.reverse)

/-- The tokens of a source text, semicolons inserted. -/
def lexGo (text : List Char) : Option (List Token) :=
  lexEnd (text.foldl lexStep { mode := Mode.code, insertSemi := false, out := [] })

/-- The characters of a file given by its lines. -/
def fileText (content : List String) : List Char :=
  List.intercalate ['\n'] (content.map String.toList)

/-! ## The top level of a source file (Go specification, "Source file organization")

`SourceFile = PackageClause ";" { ImportDecl ";" } { TopLevelDecl ";" }` -/

/-- An import specification: the optional name (`_`, `.` or a package name)
and the import path. -/
structure ImportSpec where
  name : Option String
  path : String
deriving DecidableEq, Repr

/-- The kinds of top-level declaration other than imports. -/
inductive DeclKind where
  | const
  | type
  | var
  | func
deriving DecidableEq, Repr

/-- A top-level declaration: its kind and the tokens that follow its keyword. -/
structure Decl where
  kind : DeclKind
  body : List Token
deriving DecidableEq, Repr

/-- A source file, as far as its top level goes. -/
structure GoFile where
  pkg : String
  imports : List ImportSpec
  decls : List Decl
deriving DecidableEq, Repr

/-- The value of a string literal used as import path; literals with escape
sequences are outside the model. -/
def pathValue (raw : Bool) (text : String) : Option String :=
  if raw || !text.toList.contains bslash then some text else none

/-- `ImportSpec = [ "." | PackageName ] ImportPath`; the tokens that follow
are returned too. -/
def importSpec : List Token → Option (ImportSpec × List Token)
  | Token.str raw text :: r =>
    (pathValue raw text).map (fun p => ({ name := none, path := p }, r))
  | Token.op o :: Token.str raw text :: r =>
    if o == "." then (pathValue raw text).map (fun p => ({ name := some ".", path := p }, r))
    else none
  | Token.ident n :: Token.str raw text :: r =>
    (pathValue raw text).map (fun p => ({ name := some n, path := p }, r))
  | _ => none

/-- The rest of `"(" { ImportSpec ";" } ")"` after the opening parenthesis;
the semicolon before the closing parenthesis may be missing. -/
def importGroup : Nat → List Token → Option (List ImportSpec × List Token)
  | 0, _ => none
  | n + 1, ts =>
    match ts with
    | Token.op ")" :: r => some ([], r)
    | _ =>
      match importSpec ts with
      | none => none
      | some (sp, r) =>
        match r with
        | Token.semi :: r2 => (importGroup n r2).map (fun q => (sp :: q.1, q.2))
        | Token.op ")" :: r2 => some ([sp], r2)
        | _ => none

/-- `{ ImportDecl ";" }` with
`ImportDecl = "import" ( ImportSpec | "(" { ImportSpec ";" } ")" )`. -/
def importDecls : Nat → List Token → Option (List ImportSpec × List Token)
  | 0, _ => none
  | n + 1, ts =>
    match ts with
    | Token.keyword "import" :: r =>
      let one : Option (List ImportSpec × List Token) :=
        match r with
        | Token.op "(" :: r1 => importGroup (r1.length + 1) r1
        | _ => (importSpec r).map (fun q => ([q.1], q.2))
      match one with
      | some (sps, Token.semi :: r2) => (importDecls n r2).map (fun q => (sps ++ q.1, q.2))
      | _ => none
    | _ => some ([], ts)

/-- The bracket depth after a token. -/
def depthAfter (depth : Nat) : Token → Nat
  | Token.op o =>
    if o == "(" || o == "[" || o == "\x7b" then depth + 1
    else if o == ")" || o == "]" || o == "\x7d" then depth - 1
    else depth
  | _ => depth

/-- Cuts the tokens after the imports at the semicolons outside of brackets;
`cur` is the piece being read, reversed.  Text after the last such semicolon
is an error. -/
def splitDecls : List Token → Nat → List Token → Option (List (List Token))
  | [], _, cur => if cur.isEmpty then some [] else none
  | t :: r, depth, cur =>
    if t == Token.semi && depth == 0 then (splitDecls r 0 []).map (fun ds => cur.reverse :: ds)
    else splitDecls r (depthAfter depth t) (t :: cur)

/-- `TopLevelDecl`: told by its keyword (`const`, `type`, `var`, `func`). -/
def topLevelDecl : List Token → Option Decl
  | Token.keyword k :: body =>
    if k == "const" then some { kind := DeclKind.const, body := body }
    else if k == "type" then some { kind := DeclKind.type, body := body }
    else if k == "var" then some { kind := DeclKind.var, body := body }
    else if k == "func" then some { kind := DeclKind.func, body := body }
    else none
  | _ => none

/-- `{ TopLevelDecl ";" }`. -/
def topLevelDecls (ts : List Token) : Option (List Decl) :=
  match splitDecls ts 0 [] with
  | none => none
  | some pieces => pieces.mapM topLevelDecl

/-- `SourceFile`, from the tokens. -/
def sourceFile : List Token → Option GoFile
  | Token.keyword "package" :: Token.ident name :: Token.semi :: r =>
    match importDecls (r.length + 1) r with
    | none => none
    | some (imports, r2) =>
      (topLevelDecls r2).map (fun ds => { pkg := name, imports := imports, decls := ds })
  | _ => none

/-- Parses a file given by its lines; `none` when the text is outside the
grammar above. -/
def parseFile (content : List String) : Option GoFile :=
  match lexGo (fileText content) with
  | none => none
  | some ts => sourceFile ts

/-! ## Scope and dependencies -/

/-- What an import declares in the file block (Go specification, "Import
declarations"). -/
inductive Binding where
  | blank
  | dot
  | named (n : String)
  | implicit (path : String)
deriving DecidableEq, Repr

/-- The binding of an import specification: `_` declares nothing, `.`
declares the exported identifiers of the package, a name declares that name,
and without a name the package's own name is declared. -/
def ImportSpec.binding (sp : ImportSpec) : Binding :=
  match sp.name with
  | none => Binding.implicit sp.path
  | some n =>
    if n == "_" then Binding.blank
    else if n == "." then Binding.dot
    else Binding.named n

/-- Whether an import puts a name into scope. -/
def ImportSpec.declaresName (sp : ImportSpec) : Bool :=
  sp.binding != Binding.blank

/-- The identifiers of a token list. -/
def identsOf (ts : List Token) : List String :=
  ts.filterMap (fun t => match t with | Token.ident n => some n | _ => none)

/-- The identifiers that occur in the declarations of a file after its
imports: only there can an imported package be referred to. -/
def GoFile.usedIdents (f : GoFile) : List String :=
  f.decls.flatMap (fun d => identsOf d.body)

/-- The import paths of a file. -/
def GoFile.importPaths (f : GoFile) : List String :=
  f.imports.map (fun sp => sp.path)

/-- The package names found in the package clauses of the files built under
`ok`. -/
def packageNames (files : List (List String)) (ok : String → Bool) : List String :=
  (files.filterMap (fun content =>
    if shouldBuild content ok = some true then (parseFile content).map (fun f => f.pkg)
    else none)).dedup

/-- The edges of the dependency graph that leave a package: the import paths
of its files that are built under `ok`. -/
def packageImports (files : List (List String)) (ok : String → Bool) : List String :=
  files.flatMap (fun content =>
    if shouldBuild content ok = some true then
      match parseFile content with
      | some f => f.importPaths
      | none => []
    else [])

/-- The files of package `tools`. -/
def toolsPackage : List (List String) :=
  [toolsGo]

/-- The import path of the gomobile tool. -/
def gomobile : String :=
  "golang.org/x/mobile/cmd/gomobile"

/-! ## What the text of `tools.go` evaluates to -/

/-- The header of `tools.go`: its first five lines. -/
def toolsHeader : List (List Char) :=
  (toolsGo.map String.toList).take 5

theorem toolsGo_header :
    parseFileHeader toolsGo = some (toolsHeader, some "//go:build tools".toList) := by
  decide

theorem toolsGo_goBuildExpr : goBuildExpr toolsGo = some (Expr.tag "tools") := by
  decide

theorem toolsGo_legacyExprs : legacyExprs toolsGo = [Expr.tag "tools"] := by
  decide

theorem toolsHeader_plusBuildExprs : plusBuildExprs toolsHeader = [Expr.tag "tools"] := by
  decide

theorem toolsGo_shouldBuild (ok : String → Bool) :
    shouldBuild toolsGo ok = some (ok "tools") := by
  rfl

theorem toolsGo_shouldBuildLegacy (ok : String → Bool) :
    shouldBuildLegacy toolsGo ok = some (ok "tools") := by
  simp [shouldBuildLegacy, toolsGo_header, evalPlusBuild, toolsHeader_plusBuildExprs, Expr.eval]

set_option maxRecDepth 100000 in
theorem toolsGo_tokens :
    lexGo (fileText toolsGo) =
      some [ Token.keyword "package", Token.ident "tools", Token.semi,
             Token.keyword "import", Token.op "(",
             Token.ident "_", Token.str false gomobile, Token.semi,
             Token.op ")", Token.semi ] := by
  decide

set_option maxRecDepth 100000 in
theorem toolsGo_parse :
    parseFile toolsGo =
      some { pkg := "tools", imports := [{ name := some "_", path := gomobile }], decls := [] } := by
  decide

theorem tagSet_tools (tags : List String) : tagSet tags "tools" = true ↔ "tools" ∈ tags := by
  simp [tagSet]

/-! ## The claims -/

/-- C1: the build constraint of `tools.go` holds exactly when the tag `tools`
is set.  For every set of build tags the file is built if and only if `tools`
is in the set, it is left out if and only if `tools` is not in the set, and
under the empty tag set it is left out. -/
theorem tools_built_iff_tag :
    (∀ tags : List String, shouldBuild toolsGo (tagSet tags) = some true ↔ "tools" ∈ tags) ∧
    (∀ tags : List String, shouldBuild toolsGo (tagSet tags) = some false ↔ "tools" ∉ tags) ∧
    shouldBuild toolsGo (tagSet []) = some false := by
  refine ⟨fun tags => ?_, fun tags => ?_, ?_⟩
  · rw [toolsGo_shouldBuild, Option.some.injEq]
    exact tagSet_tools tags
  · rw [toolsGo_shouldBuild, Option.some.injEq, ← tagSet_tools, Bool.not_eq_true]
  · rw [toolsGo_shouldBuild]
    rfl

/-- C2: when `tools.go` is processed with the tag `tools` set, the packages
imported by package `tools` include `golang.org/x/mobile/cmd/gomobile`: the
files built make up a package named `tools` whose dependency edges contain the
gomobile tool. -/
theorem gomobile_in_dependency_graph (tags : List String) (h : "tools" ∈ tags) :
    packageNames toolsPackage (tagSet tags) = ["tools"] ∧
    gomobile ∈ packageImports toolsPackage (tagSet tags) := by
  have hb : shouldBuild toolsGo (tagSet tags) = some true := by
    rw [toolsGo_shouldBuild, (tagSet_tools tags).mpr h]
  constructor
  · simp [packageNames, toolsPackage, hb, toolsGo_parse]
  · simp [packageImports, toolsPackage, hb, toolsGo_parse, GoFile.importPaths]

/-- Witness of C2 at the tag set that holds `tools` only. -/
theorem gomobile_in_dependency_graph_witness :
    "tools" ∈ ["tools"] ∧
    packageNames toolsPackage (tagSet ["tools"]) = ["tools"] ∧
    gomobile ∈ packageImports toolsPackage (tagSet ["tools"]) :=
  ⟨by decide, gomobile_in_dependency_graph ["tools"] (by decide)⟩

/-- C3: package `tools` declares nothing.  The file parses, its package
clause names `tools`, and after the package clause the tokens are those of
the import declaration alone: there is no further top-level declaration, in
particular none of kind `func`, `type`, `var` or `const`. -/
theorem tools_declares_nothing :
    ∃ f : GoFile, parseFile toolsGo = some f ∧ f.pkg = "tools" ∧ f.decls = [] ∧
      (∀ k : DeclKind, f.decls.filter (fun d => d.kind = k) = []) ∧
      ∃ ts : List Token, lexGo (fileText toolsGo) = some ts ∧
        ts.drop 3 = [ Token.keyword "import", Token.op "(", Token.ident "_",
                      Token.str false gomobile, Token.semi, Token.op ")", Token.semi ] := by
  refine ⟨_, toolsGo_parse, rfl, rfl, fun k => rfl, _, toolsGo_tokens, rfl⟩

/-- C4: the file has exactly one import, bound to the blank identifier `_`.
The import declares no name, no identifier occurs in a declaration after the
imports, and the only identifiers of the whole file are the package name
`tools` and `_`, so nothing refers to the imported package. -/
theorem tools_single_blank_import :
    ∃ (f : GoFile) (sp : ImportSpec), parseFile toolsGo = some f ∧ f.imports = [sp] ∧
      sp.name = some "_" ∧ sp.path = gomobile ∧
      sp.binding = Binding.blank ∧ sp.declaresName = false ∧
      f.usedIdents = [] ∧
      ∃ ts : List Token, lexGo (fileText toolsGo) = some ts ∧ identsOf ts = ["tools", "_"] := by
  refine ⟨_, _, toolsGo_parse, rfl, rfl, rfl, by decide, by decide, rfl, _, toolsGo_tokens, rfl⟩

/-- C5: the two build-constraint lines agree.  The `//go:build` line and the
one `// +build` line of the header parse to expressions that evaluate alike
under every assignment of tags, and for every set of build tags a toolchain
reading the new form and one reading the legacy form take the same decision
on the file. -/
theorem build_constraint_lines_agree :
    ∃ x y : Expr, goBuildExpr toolsGo = some x ∧ legacyExprs toolsGo = [y] ∧
      (∀ ok : String → Bool, x.eval ok = y.eval ok) ∧
      ∀ tags : List String,
        shouldBuild toolsGo (tagSet tags) = shouldBuildLegacy toolsGo (tagSet tags) := by
  refine ⟨_, _, toolsGo_goBuildExpr, toolsGo_legacyExprs, fun ok => rfl, fun tags => ?_⟩
  rw [toolsGo_shouldBuild, toolsGo_shouldBuildLegacy]

end tools
